import Mathlib

/-!
Verification of the Dorik module-loader orchestrator.

The development shallowly embeds the orchestrator found in `loader.js`
(and its near-duplicate variant): the module registry, the
priority-ordered dependency-checked load phase, the fixed-order init
phase, the memoized startup entry point, the viewport lazy-load batch
scheduler, the viewport distance computation, the teardown handler and
the status snapshot.  Remote fetch outcomes and module init outcomes are
oracles (`String → Bool`); all state mutation is explicit state passing.
-/

set_option maxRecDepth 4096

/-- One entry of the loader's `modules` configuration object:
`{ file, required, priority, depends }`. -/
structure ModuleConfig where
  file : String
  required : Bool
  priority : Int
  depends : List String
deriving Repr, DecidableEq

/-- The `modules` object, as an association list in registration
(insertion) order: `Object.entries` enumerates string keys in insertion
order. -/
abbrev Registry := List (String × ModuleConfig)

/-- `Object.entries(this.modules).sort(([,a],[,b]) => a.priority - b.priority)`.
JavaScript `Array.prototype.sort` is stable, so a stable insertion sort
by ascending priority is the faithful embedding. -/
def sortByPriority (reg : Registry) : Registry :=
  List.insertionSort (fun a b => a.2.priority ≤ b.2.priority) reg

/-- Failures recorded during the startup sequence (§7 of the design:
`DependencyUnmet`, `ModuleFetchFailed`, `ModuleInitFailed`). -/
inductive LoadFailure where
  | depUnmet (name dep : String)
  | fetchFailed (name : String)
  | initFailed (name : String)
deriving Repr, DecidableEq

/-- Loader state threaded through the load phase.  `loadedModules` is the
`this.loadedModules` set (kept as a duplicate-free list in insertion
order); `fetchAttempts` logs every script fetch started by `loadModule`;
`turns` logs each descriptor reaching its loop iteration in
`loadModules`; `failures` logs recorded failures. -/
structure LoadState where
  loadedModules : List String
  fetchAttempts : List String
  turns : List String
  failures : List LoadFailure
deriving Repr, DecidableEq

def initialLoadState : LoadState := ⟨[], [], [], []⟩

/-- `loadModule(name, config)`: unconditionally creates a new script
element for the module's URL and awaits it.  There is no check of
`loadedModules` and no lookup of an existing handle: every call starts a
fresh fetch.  The oracle gives the outcome of the awaited script load. -/
def loadModule (fetchOk : String → Bool) (st : LoadState) (name : String) :
    LoadState × Bool :=
  ({ st with fetchAttempts := st.fetchAttempts ++ [name] }, fetchOk name)

/-- The dependency check at the top of the `loadModules` loop body:
`for (const dep of config.depends) if (!this.loadedModules.has(dep)) throw`.
Returns the first dependency not in the loaded set, if any. -/
def firstMissingDep (loadedModules : List String) (deps : List String) :
    Option String :=
  deps.find? (fun d => !loadedModules.contains d)

/-- One iteration of the `loadModules` loop for descriptor `m`:
dependency check, then fetch, then `loadedModules.add`; a failure is
caught, and the returned flag is `false` exactly when the module is
required and failed (the rethrow that aborts the loop). -/
def loadStep (fetchOk : String → Bool) (st : LoadState)
    (m : String × ModuleConfig) : LoadState × Bool :=
  let st0 := { st with turns := st.turns ++ [m.1] }
  match firstMissingDep st0.loadedModules m.2.depends with
  | some d =>
      ({ st0 with failures := st0.failures ++ [LoadFailure.depUnmet m.1 d] },
       !m.2.required)
  | none =>
      let r := loadModule fetchOk st0 m.1
      if r.2 then
        ({ r.1 with loadedModules := r.1.loadedModules ++ [m.1] }, true)
      else
        ({ r.1 with failures := r.1.failures ++ [LoadFailure.fetchFailed m.1] },
         !m.2.required)

/-- The `loadModules` loop over an already-sorted descriptor list.  The
Boolean is `true` when the loop ran to completion, `false` when a
required failure aborted it (the thrown error reaches `_performInit`). -/
def loadModulesAux (fetchOk : String → Bool) :
    List (String × ModuleConfig) → LoadState → LoadState × Bool
  | [], st => (st, true)
  | m :: rest, st =>
      let r := loadStep fetchOk st m
      if r.2 then loadModulesAux fetchOk rest r.1 else r

/-- `loadModules()`: sort the registry by priority, then run the loop
from the fresh loader state. -/
def loadModules (fetchOk : String → Bool) (reg : Registry) : LoadState × Bool :=
  loadModulesAux fetchOk (sortByPriority reg) initialLoadState

/-- `this.modules[name]?.required` used by `initializeModules`'s catch
block. -/
def lookupRequired (reg : Registry) (name : String) : Bool :=
  match reg.find? (fun p => p.1 == name) with
  | some p => p.2.required
  | none => false

/-- State of the init phase: `inited` collects the modules whose init
hook ran without throwing, `initFailures` those whose hook threw. -/
structure InitPhaseState where
  inited : List String
  initFailures : List String
deriving Repr, DecidableEq

/-- One iteration of the `initializeModules` loop: skip names not in the
loaded set; otherwise run the module's init hook (outcome given by the
oracle); on a throw, abort only when the module is required. -/
def initStep (reg : Registry) (initOk : String → Bool)
    (loadedModules : List String) (st : InitPhaseState) (name : String) :
    InitPhaseState × Bool :=
  if loadedModules.contains name then
    if initOk name then
      ({ st with inited := st.inited ++ [name] }, true)
    else
      ({ st with initFailures := st.initFailures ++ [name] },
       !lookupRequired reg name)
  else (st, true)

/-- The `initializeModules` loop over the fixed `initOrder` list. -/
def initModulesAux (reg : Registry) (initOk : String → Bool)
    (loadedModules : List String) :
    List String → InitPhaseState → InitPhaseState × Bool
  | [], st => (st, true)
  | n :: rest, st =>
      let r := initStep reg initOk loadedModules st n
      if r.2 then initModulesAux reg initOk loadedModules rest r.1 else r

/-- Observable outcome of one `_performInit` run: the resolved Boolean,
the final sets, the fetch log, and the list of emitted ReadySignals
(each carrying its `loadedModules` payload). -/
structure InitResult where
  ok : Bool
  loadedModules : List String
  inited : List String
  fetchAttempts : List String
  failures : List LoadFailure
  initFailures : List String
  readySignals : List (List String)
deriving Repr, DecidableEq

/-- `_performInit`: `try { loadModules(); initializeModules(); …;
fireReadyEvent(); return true } catch { return false }`.  A required
failure in either phase is the thrown error reaching the catch: the call
resolves to `false` and `fireReadyEvent` is never reached. -/
def performInit (reg : Registry) (initOrder : List String)
    (fetchOk initOk : String → Bool) : InitResult :=
  let l := loadModules fetchOk reg
  if l.2 then
    let i := initModulesAux reg initOk l.1.loadedModules initOrder ⟨[], []⟩
    if i.2 then
      { ok := true, loadedModules := l.1.loadedModules, inited := i.1.inited,
        fetchAttempts := l.1.fetchAttempts, failures := l.1.failures,
        initFailures := i.1.initFailures, readySignals := [l.1.loadedModules] }
    else
      { ok := false, loadedModules := l.1.loadedModules, inited := i.1.inited,
        fetchAttempts := l.1.fetchAttempts, failures := l.1.failures,
        initFailures := i.1.initFailures, readySignals := [] }
  else
    { ok := false, loadedModules := l.1.loadedModules, inited := [],
      fetchAttempts := l.1.fetchAttempts, failures := l.1.failures,
      initFailures := [], readySignals := [] }

/-- The memoization slot `this.initializationPromise`. -/
structure LoaderMem where
  promise : Option InitResult
deriving Repr, DecidableEq

/-- `init(options)`: if the memoization slot is filled, return the stored
future (no new sequence); otherwise run `_performInit` once, store it,
and return it.  The `Nat` counts underlying startup sequences executed
by this call (0 or 1). -/
def initCall (reg : Registry) (initOrder : List String)
    (fetchOk initOk : String → Bool) (mem : LoaderMem) :
    InitResult × LoaderMem × Nat :=
  match mem.promise with
  | some r => (r, mem, 0)
  | none =>
      let r := performInit reg initOrder fetchOk initOk
      (r, ⟨some r⟩, 1)

/-- `n` successive `init()` calls against the same loader object,
collecting every caller's resolved result and the total number of
underlying startup sequences executed. -/
def initCalls (reg : Registry) (initOrder : List String)
    (fetchOk initOk : String → Bool) :
    Nat → LoaderMem → List InitResult × LoaderMem × Nat
  | 0, mem => ([], mem, 0)
  | n + 1, mem =>
      let r := initCall reg initOrder fetchOk initOk mem
      let rest := initCalls reg initOrder fetchOk initOk n r.2.1
      (r.1 :: rest.1, rest.2.1, r.2.2 + rest.2.2)

/-- The default `modules` object of `loader.js`, in registration order. -/
def defaultModules : Registry :=
  [("config", ⟨"config.min.js", true, 1, []⟩),
   ("cache", ⟨"cache.min.js", true, 2, ["config"]⟩),
   ("firebase", ⟨"firebase.min.js", true, 3, ["config", "cache"]⟩),
   ("tracking", ⟨"tracking.min.js", false, 4, ["config"]⟩),
   ("gallery", ⟨"gallery.min.js", false, 5, ["config", "cache", "firebase"]⟩),
   ("forms", ⟨"forms.min.js", false, 6, ["config"]⟩),
   ("lazy", ⟨"lazy.min.js", false, 7, ["config", "firebase"]⟩)]

/-- The fixed `initOrder` list of `initializeModules` in `loader.js`. -/
def defaultInitOrder : List String :=
  ["config", "cache", "firebase", "tracking", "gallery", "forms", "lazy"]

/-- `element.getBoundingClientRect()` restricted to the fields the code
reads. -/
structure Rect where
  top : Int
  bottom : Int
deriving Repr, DecidableEq

/-- `getDistanceFromViewport(element)`:
`rect.top >= 0 && rect.top <= viewportHeight → 0`,
`rect.top > viewportHeight → rect.top - viewportHeight`,
otherwise `Math.abs(rect.bottom)`. -/
def getDistanceFromViewport (rect : Rect) (viewportHeight : Int) : Int :=
  if 0 ≤ rect.top ∧ rect.top ≤ viewportHeight then 0
  else if viewportHeight < rect.top then rect.top - viewportHeight
  else |rect.bottom|

/-- One entry of an IntersectionObserver callback. -/
structure IEntry where
  id : String
  isIntersecting : Bool
  rect : Rect
deriving Repr, DecidableEq

/-- An element of `containersToLoad`: container id plus its computed
distance from the viewport. -/
structure Candidate where
  id : String
  distance : Int
deriving Repr, DecidableEq

/-- Scheduler state: `processedContainers` (the ProcessedSet, a set kept
as a duplicate-free list) and the log of dispatched batches (the
container-id list handed to each `preloadProducts` call, in dispatch
order). -/
structure SchedState where
  processedContainers : List String
  dispatched : List (List String)
deriving Repr, DecidableEq

/-- `Set.prototype.add`: adding an already-present element is a no-op. -/
def addProcessed (l : List String) (id : String) : List String :=
  if l.contains id then l else l ++ [id]

/-- `processBatch(containers)`: dispatch the batch's ids to the remote
fetch; only if the awaited fetch succeeds does the `forEach` marking the
ids as processed run; a thrown fetch error is caught and logged, leaving
the ProcessedSet untouched. -/
def processBatch (batchFetchOk : List String → Bool) (st : SchedState)
    (batch : List Candidate) : SchedState :=
  let ids := batch.map Candidate.id
  let st1 := { st with dispatched := st.dispatched ++ [ids] }
  if batchFetchOk ids then
    { st1 with processedContainers := ids.foldl addProcessed st1.processedContainers }
  else st1

/-- `containersToLoad`: the entries reported intersecting whose id is not
already in the ProcessedSet, each with its computed distance. -/
def eligibleEntries (processedContainers : List String) (viewportHeight : Int)
    (entries : List IEntry) : List Candidate :=
  entries.filterMap (fun e =>
    if e.isIntersecting && !processedContainers.contains e.id then
      some ⟨e.id, getDistanceFromViewport e.rect viewportHeight⟩
    else none)

/-- `containersToLoad.sort((a, b) => a.distance - b.distance)` — stable,
ascending by distance. -/
def sortByDistance (l : List Candidate) : List Candidate :=
  List.insertionSort (fun a b => a.distance ≤ b.distance) l

/-- `config?.BATCH_SIZE || 30`: an absent config or a zero (falsy) batch
size falls back to 30. -/
def batchSizeOf (cfg : Option Nat) : Nat :=
  match cfg with
  | none => 30
  | some 0 => 30
  | some s => s

/-- The batching loop `for (let i = 0; i < n; i += batchSize)` as the
list of slices of size `S`; the fuel (length of the remaining list)
makes the recursion structural. -/
def chunksFuel (S : Nat) : Nat → List Candidate → List (List Candidate)
  | 0, _ => []
  | _, [] => []
  | fuel + 1, a :: l => ((a :: l).take S) :: chunksFuel S fuel (l.drop (S - 1))

/-- The list of consecutive slices of size `S` of `l`. -/
def chunks (S : Nat) (l : List Candidate) : List (List Candidate) :=
  chunksFuel S l.length l

/-- `handleIntersection(entries)`: collect the eligible containers, stop
if none, sort by distance, then dispatch the batches sequentially
(each one awaited before the next). -/
def handleIntersection (batchFetchOk : List String → Bool)
    (viewportHeight : Int) (batchCfg : Option Nat) (entries : List IEntry)
    (st : SchedState) : SchedState :=
  let toLoad := eligibleEntries st.processedContainers viewportHeight entries
  if toLoad.isEmpty then st
  else
    (chunks (batchSizeOf batchCfg) (sortByDistance toLoad)).foldl
      (processBatch batchFetchOk) st

/-- The fixed list of module namespaces whose optional `cleanup` the
`beforeunload` handler of `loader.js` invokes, in source order. -/
def cleanupOrder : List String :=
  ["cache", "tracking", "forms", "gallery", "lazy", "firebase"]

/-- One invocation of the teardown (`beforeunload`) handler: for every
module namespace in the fixed list whose global object is present, call
its `cleanup()` (optional chaining tolerates absence).  The log records
each cleanup invocation. -/
def teardown (present : String → Bool) (log : List String) : List String :=
  log ++ cleanupOrder.filter (fun n => present n)

/-- `n` successive invocations of the teardown handler. -/
def teardownN (present : String → Bool) : Nat → List String → List String
  | 0, log => log
  | n + 1, log => teardownN present n (teardown present log)

/-- The observable system state feeding `getStatus`: the loader's
`loadedModules`, the ghost record of which modules' init hooks succeeded
(tracked by the proofs, recorded nowhere by the code), and the
`window.DORIK_READY` flag. -/
structure SystemState where
  loadedModules : List String
  inited : List String
  ready : Bool
deriving Repr, DecidableEq

/-- The snapshot object `getStatus()` returns (the fields with
state-machine content; the pass-through stats are externals). -/
structure Status where
  loaded : Bool
  modules : List String
  ready : Bool
deriving Repr, DecidableEq

/-- `getStatus()`: `{ loaded: this.loadedModules.size > 0,
modules: Array.from(this.loadedModules), ready: !!window.DORIK_READY }`. -/
def getStatus (s : SystemState) : Status :=
  { loaded := decide (0 < s.loadedModules.length),
    modules := s.loadedModules,
    ready := s.ready }

/-- The system state after one startup sequence: `DORIK_READY` is set by
`fireReadyEvent`, i.e. exactly when a ReadySignal was emitted. -/
def stateAfterInit (reg : Registry) (initOrder : List String)
    (fetchOk initOk : String → Bool) : SystemState :=
  let r := performInit reg initOrder fetchOk initOk
  { loadedModules := r.loadedModules, inited := r.inited,
    ready := !r.readySignals.isEmpty }

/-! ### Order instances for the two stable sorts -/

instance : IsTotal (String × ModuleConfig)
    (fun a b => a.2.priority ≤ b.2.priority) :=
  ⟨fun a b => Int.le_total a.2.priority b.2.priority⟩

instance : IsTrans (String × ModuleConfig)
    (fun a b => a.2.priority ≤ b.2.priority) :=
  ⟨fun _ _ _ hab hbc => le_trans hab hbc⟩

instance : IsTotal Candidate (fun a b => a.distance ≤ b.distance) :=
  ⟨fun a b => Int.le_total a.distance b.distance⟩

instance : IsTrans Candidate (fun a b => a.distance ≤ b.distance) :=
  ⟨fun _ _ _ hab hbc => le_trans hab hbc⟩

/-! ### Load-phase lemmas -/

theorem loadStep_dep {st : LoadState} {m : String × ModuleConfig} {d : String}
    (f : String → Bool)
    (h : firstMissingDep st.loadedModules m.2.depends = some d) :
    loadStep f st m =
      ({ st with turns := st.turns ++ [m.1],
                 failures := st.failures ++ [LoadFailure.depUnmet m.1 d] },
       !m.2.required) := by
  simp [loadStep, h]

theorem loadStep_fetch_ok {st : LoadState} {m : String × ModuleConfig}
    {f : String → Bool}
    (h : firstMissingDep st.loadedModules m.2.depends = none)
    (hf : f m.1 = true) :
    loadStep f st m =
      ({ st with turns := st.turns ++ [m.1],
                 fetchAttempts := st.fetchAttempts ++ [m.1],
                 loadedModules := st.loadedModules ++ [m.1] }, true) := by
  simp [loadStep, h, loadModule, hf]

theorem loadStep_fetch_fail {st : LoadState} {m : String × ModuleConfig}
    {f : String → Bool}
    (h : firstMissingDep st.loadedModules m.2.depends = none)
    (hf : f m.1 = false) :
    loadStep f st m =
      ({ st with turns := st.turns ++ [m.1],
                 fetchAttempts := st.fetchAttempts ++ [m.1],
                 failures := st.failures ++ [LoadFailure.fetchFailed m.1] },
       !m.2.required) := by
  simp [loadStep, h, loadModule, hf]

theorem loadAux_nil (f : String → Bool) (st : LoadState) :
    loadModulesAux f [] st = (st, true) := rfl

theorem loadAux_cons (f : String → Bool) (m : String × ModuleConfig)
    (rest : List (String × ModuleConfig)) (st : LoadState) :
    loadModulesAux f (m :: rest) st =
      if (loadStep f st m).2 then loadModulesAux f rest (loadStep f st m).1
      else loadStep f st m := rfl

theorem loadStep_turns (f : String → Bool) (st : LoadState)
    (m : String × ModuleConfig) :
    (loadStep f st m).1.turns = st.turns ++ [m.1] := by
  cases h : firstMissingDep st.loadedModules m.2.depends with
  | some d => rw [loadStep_dep f h]
  | none =>
      cases hf : f m.1 with
      | true => rw [loadStep_fetch_ok h hf]
      | false => rw [loadStep_fetch_fail h hf]

theorem loadStep_loaded (f : String → Bool) (st : LoadState)
    (m : String × ModuleConfig) :
    (loadStep f st m).1.loadedModules = st.loadedModules ∨
    (loadStep f st m).1.loadedModules = st.loadedModules ++ [m.1] := by
  cases h : firstMissingDep st.loadedModules m.2.depends with
  | some d => rw [loadStep_dep f h]; left; rfl
  | none =>
      cases hf : f m.1 with
      | true => rw [loadStep_fetch_ok h hf]; right; rfl
      | false => rw [loadStep_fetch_fail h hf]; left; rfl

theorem loadStep_fetchAttempts (f : String → Bool) (st : LoadState)
    (m : String × ModuleConfig) :
    (loadStep f st m).1.fetchAttempts = st.fetchAttempts ∨
    (loadStep f st m).1.fetchAttempts = st.fetchAttempts ++ [m.1] := by
  cases h : firstMissingDep st.loadedModules m.2.depends with
  | some d => rw [loadStep_dep f h]; left; rfl
  | none =>
      cases hf : f m.1 with
      | true => rw [loadStep_fetch_ok h hf]; right; rfl
      | false => rw [loadStep_fetch_fail h hf]; right; rfl

theorem loadStep_failures (f : String → Bool) (st : LoadState)
    (m : String × ModuleConfig) :
    ∃ t, (loadStep f st m).1.failures = st.failures ++ t := by
  cases h : firstMissingDep st.loadedModules m.2.depends with
  | some d => rw [loadStep_dep f h]; exact ⟨_, rfl⟩
  | none =>
      cases hf : f m.1 with
      | true => rw [loadStep_fetch_ok h hf]; exact ⟨[], by simp⟩
      | false => rw [loadStep_fetch_fail h hf]; exact ⟨_, rfl⟩

theorem loadStep_required (f : String → Bool) (st : LoadState)
    (m : String × ModuleConfig) (hreq : m.2.required = true)
    (hok : (loadStep f st m).2 = true) :
    (loadStep f st m).1.loadedModules = st.loadedModules ++ [m.1] := by
  cases h : firstMissingDep st.loadedModules m.2.depends with
  | some d => rw [loadStep_dep f h] at hok ⊢; simp [hreq] at hok
  | none =>
      cases hf : f m.1 with
      | true => rw [loadStep_fetch_ok h hf]
      | false => rw [loadStep_fetch_fail h hf] at hok; simp [hreq] at hok

/-- Append-splitting of the load loop: running `l1 ++ l2` first runs
`l1`; if that aborted, `l2` is never reached. -/
theorem loadAux_append (f : String → Bool) (l1 l2 : List (String × ModuleConfig))
    (st : LoadState) :
    loadModulesAux f (l1 ++ l2) st =
      if (loadModulesAux f l1 st).2 then
        loadModulesAux f l2 (loadModulesAux f l1 st).1
      else loadModulesAux f l1 st := by
  induction l1 generalizing st with
  | nil => simp [loadAux_nil]
  | cons m l1 ih =>
      rw [List.cons_append, loadAux_cons, loadAux_cons]
      cases hs : (loadStep f st m).2 with
      | true => simp only [if_pos rfl]; exact ih (loadStep f st m).1
      | false => simp [hs]

/-- Names added to `loadedModules` during a run come from the processed
descriptor list, in order. -/
theorem loadAux_loaded_sub (f : String → Bool)
    (l : List (String × ModuleConfig)) (st : LoadState) :
    ∃ t, (loadModulesAux f l st).1.loadedModules = st.loadedModules ++ t ∧
      t.Sublist (l.map Prod.fst) := by
  induction l generalizing st with
  | nil => exact ⟨[], by simp [loadAux_nil]⟩
  | cons m rest ih =>
      rw [loadAux_cons]
      cases hs : (loadStep f st m).2 with
      | true =>
          rw [if_pos rfl]
          obtain ⟨t, ht, hsub⟩ := ih (loadStep f st m).1
          rcases loadStep_loaded f st m with h | h
          · exact ⟨t, by rw [ht, h], hsub.cons m.1⟩
          · refine ⟨m.1 :: t, ?_, hsub.cons₂ m.1⟩
            rw [ht, h, List.append_assoc]; rfl
      | false =>
          rw [if_neg (by simp)]
          rcases loadStep_loaded f st m with h | h
          · exact ⟨[], by simp [h], List.nil_sublist _⟩
          · exact ⟨[m.1], by simp [h], by simp⟩

/-- Fetch attempts performed during a run come from the processed
descriptor list, in order. -/
theorem loadAux_fetch_sub (f : String → Bool)
    (l : List (String × ModuleConfig)) (st : LoadState) :
    ∃ t, (loadModulesAux f l st).1.fetchAttempts = st.fetchAttempts ++ t ∧
      t.Sublist (l.map Prod.fst) := by
  induction l generalizing st with
  | nil => exact ⟨[], by simp [loadAux_nil]⟩
  | cons m rest ih =>
      rw [loadAux_cons]
      cases hs : (loadStep f st m).2 with
      | true =>
          rw [if_pos rfl]
          obtain ⟨t, ht, hsub⟩ := ih (loadStep f st m).1
          rcases loadStep_fetchAttempts f st m with h | h
          · exact ⟨t, by rw [ht, h], hsub.cons m.1⟩
          · refine ⟨m.1 :: t, ?_, hsub.cons₂ m.1⟩
            rw [ht, h, List.append_assoc]; rfl
      | false =>
          rw [if_neg (by simp)]
          rcases loadStep_fetchAttempts f st m with h | h
          · exact ⟨[], by simp [h], List.nil_sublist _⟩
          · exact ⟨[m.1], by simp [h], by simp⟩

/-- Recorded failures are never erased by later iterations. -/
theorem loadAux_failures_mono (f : String → Bool)
    (l : List (String × ModuleConfig)) (st : LoadState) :
    ∃ t, (loadModulesAux f l st).1.failures = st.failures ++ t := by
  induction l generalizing st with
  | nil => exact ⟨[], by simp [loadAux_nil]⟩
  | cons m rest ih =>
      rw [loadAux_cons]
      obtain ⟨t0, ht0⟩ := loadStep_failures f st m
      cases hs : (loadStep f st m).2 with
      | true =>
          rw [if_pos rfl]
          obtain ⟨t, ht⟩ := ih (loadStep f st m).1
          exact ⟨t0 ++ t, by rw [ht, ht0, List.append_assoc]⟩
      | false =>
          rw [if_neg (by simp)]
          exact ⟨t0, ht0⟩

/-- The loaded set never shrinks during a run. -/
theorem loadAux_loaded_mono (f : String → Bool)
    (l : List (String × ModuleConfig)) (st : LoadState) :
    ∃ t, (loadModulesAux f l st).1.loadedModules = st.loadedModules ++ t := by
  obtain ⟨t, ht, _⟩ := loadAux_loaded_sub f l st
  exact ⟨t, ht⟩

/-- If the loop ran to completion, every required descriptor in the list
made it into the loaded set. -/
theorem loadAux_required_loaded (f : String → Bool)
    (l : List (String × ModuleConfig)) (st : LoadState)
    (hok : (loadModulesAux f l st).2 = true) :
    ∀ p ∈ l, p.2.required = true → p.1 ∈ (loadModulesAux f l st).1.loadedModules := by
  induction l generalizing st with
  | nil => intro p hp; simp at hp
  | cons m rest ih =>
      rw [loadAux_cons] at hok ⊢
      cases hs : (loadStep f st m).2 with
      | false =>
          rw [if_neg (by simp [hs])] at hok
          exact absurd hok (by simp [hs])
      | true =>
          rw [if_pos hs] at hok
          rw [if_pos rfl]
          intro p hp hreq
          rcases List.mem_cons.1 hp with rfl | hp
          · have hl := loadStep_required f st p hreq hs
            obtain ⟨t, ht⟩ := loadAux_loaded_mono f rest (loadStep f st p).1
            rw [ht, hl]
            simp
          · exact ih (loadStep f st m).1 hok p hp hreq

/-- The sequence of loop turns is an in-order prefix of the processed
descriptor names. -/
theorem loadAux_turns_take (f : String → Bool)
    (l : List (String × ModuleConfig)) (st : LoadState) :
    ∃ k, (loadModulesAux f l st).1.turns = st.turns ++ (l.map Prod.fst).take k := by
  induction l generalizing st with
  | nil => exact ⟨0, by simp [loadAux_nil]⟩
  | cons m rest ih =>
      rw [loadAux_cons]
      cases hs : (loadStep f st m).2 with
      | true =>
          rw [if_pos rfl]
          obtain ⟨k, hk⟩ := ih (loadStep f st m).1
          refine ⟨k + 1, ?_⟩
          rw [hk, loadStep_turns]
          simp [List.append_assoc]
      | false =>
          rw [if_neg (by simp)]
          exact ⟨1, by rw [loadStep_turns]; simp⟩

/-! ### Init-phase lemmas -/

theorem initAux_nil (reg : Registry) (initOk : String → Bool)
    (loaded : List String) (st : InitPhaseState) :
    initModulesAux reg initOk loaded [] st = (st, true) := rfl

theorem initAux_cons (reg : Registry) (initOk : String → Bool)
    (loaded : List String) (n : String) (rest : List String)
    (st : InitPhaseState) :
    initModulesAux reg initOk loaded (n :: rest) st =
      if (initStep reg initOk loaded st n).2 then
        initModulesAux reg initOk loaded rest (initStep reg initOk loaded st n).1
      else initStep reg initOk loaded st n := rfl

theorem initStep_inited (reg : Registry) (initOk : String → Bool)
    (loaded : List String) (st : InitPhaseState) (n : String) :
    (initStep reg initOk loaded st n).1.inited = st.inited ∨
    (initStep reg initOk loaded st n).1.inited = st.inited ++ [n] := by
  unfold initStep
  split
  · split
    · right; rfl
    · left; rfl
  · left; rfl

theorem initAux_inited_mono (reg : Registry) (initOk : String → Bool)
    (loaded : List String) (order : List String) (st : InitPhaseState) :
    ∃ t, (initModulesAux reg initOk loaded order st).1.inited = st.inited ++ t := by
  induction order generalizing st with
  | nil => exact ⟨[], by simp [initAux_nil]⟩
  | cons n rest ih =>
      rw [initAux_cons]
      cases hs : (initStep reg initOk loaded st n).2 with
      | true =>
          rw [if_pos rfl]
          obtain ⟨t, ht⟩ := ih (initStep reg initOk loaded st n).1
          rcases initStep_inited reg initOk loaded st n with h | h
          · exact ⟨t, by rw [ht, h]⟩
          · exact ⟨n :: t, by rw [ht, h]; simp⟩
      | false =>
          rw [if_neg (by simp [hs])]
          rcases initStep_inited reg initOk loaded st n with h | h
          · exact ⟨[], by simp [h]⟩
          · exact ⟨[n], by simp [h]⟩

/-- If the init loop ran to completion, every name in the order that is
loaded and required (per the registry lookup) had its init hook succeed. -/
theorem initAux_required_inited (reg : Registry) (initOk : String → Bool)
    (loaded : List String) (order : List String) (st : InitPhaseState)
    (hok : (initModulesAux reg initOk loaded order st).2 = true) :
    ∀ n ∈ order, loaded.contains n = true → lookupRequired reg n = true →
      n ∈ (initModulesAux reg initOk loaded order st).1.inited := by
  induction order generalizing st with
  | nil => intro n hn; simp at hn
  | cons n0 rest ih =>
      rw [initAux_cons] at hok ⊢
      cases hs : (initStep reg initOk loaded st n0).2 with
      | false =>
          rw [if_neg (by simp [hs])] at hok
          exact absurd hok (by simp [hs])
      | true =>
          rw [if_pos hs] at hok
          rw [if_pos rfl]
          intro n hn hloaded hreq
          rcases List.mem_cons.1 hn with rfl | hn
          · have hstep : (initStep reg initOk loaded st n).1.inited = st.inited ++ [n] := by
              unfold initStep at hs ⊢
              rw [if_pos hloaded] at hs ⊢
              cases hio : initOk n with
              | true => rw [if_pos rfl]
              | false =>
                  rw [if_neg (by simp [hio])] at hs
                  simp [hreq] at hs
            obtain ⟨t, ht⟩ :=
              initAux_inited_mono reg initOk loaded rest (initStep reg initOk loaded st n).1
            rw [ht, hstep]
            simp
          · exact ih (initStep reg initOk loaded st n0).1 hok n hn hloaded hreq

/-- On a registry with no duplicate names, the `modules[name]` lookup of
an entry's name yields that entry's required flag. -/
theorem lookupRequired_eq (reg : Registry) (p : String × ModuleConfig)
    (hnd : (reg.map Prod.fst).Nodup) (hp : p ∈ reg) :
    lookupRequired reg p.1 = p.2.required := by
  induction reg with
  | nil => simp at hp
  | cons q rs ih =>
      simp only [List.map_cons, List.nodup_cons] at hnd
      rcases List.mem_cons.1 hp with rfl | hp
      · simp [lookupRequired, List.find?]
      · have hne : q.1 ≠ p.1 := by
          intro he
          exact hnd.1 (he ▸ List.mem_map_of_mem Prod.fst hp)
        have : (q.1 == p.1) = false := by simp [hne]
        simp only [lookupRequired, List.find?, this]
        exact ih hnd.2 hp

/-! ### Sorting lemmas -/

/-- The sorted registry has non-decreasing priorities. -/
theorem sortByPriority_sorted (reg : Registry) :
    (sortByPriority reg).Pairwise (fun a b => a.2.priority ≤ b.2.priority) :=
  List.sorted_insertionSort _ reg

theorem sortByPriority_perm (reg : Registry) :
    (sortByPriority reg).Perm reg :=
  List.perm_insertionSort _ reg

/-- Inserting `a` does not reorder the entries of any one priority
class: on the class of priority `q` the insertion behaves like plain
`cons`. -/
theorem filter_orderedInsert (q : Int) (a : String × ModuleConfig)
    (l : List (String × ModuleConfig)) :
    (List.orderedInsert (fun x y => x.2.priority ≤ y.2.priority) a l).filter
        (fun p => decide (p.2.priority = q)) =
      ((a :: l).filter (fun p => decide (p.2.priority = q))) := by
  induction l with
  | nil => rfl
  | cons b l ih =>
      by_cases hab : a.2.priority ≤ b.2.priority
      · rw [List.orderedInsert, if_pos hab]
      · rw [List.orderedInsert, if_neg hab]
        by_cases pb : b.2.priority = q
        · have pa : ¬ a.2.priority = q := fun pa => hab (by rw [pa, pb])
          simp [List.filter_cons, pb, pa, ih]
        · by_cases pa : a.2.priority = q
          · simp [List.filter_cons, pb, pa, ih]
          · simp [List.filter_cons, pb, pa, ih]

/-- Stability of the priority sort: within each priority class the
sorted registry lists entries in their original registration order. -/
theorem sortByPriority_stable (reg : Registry) (q : Int) :
    (sortByPriority reg).filter (fun p => decide (p.2.priority = q)) =
      reg.filter (fun p => decide (p.2.priority = q)) := by
  induction reg with
  | nil => rfl
  | cons a reg ih =>
      show (List.orderedInsert _ a (sortByPriority reg)).filter _ = _
      rw [filter_orderedInsert, List.filter_cons, List.filter_cons, ih]

/-- Claim C6: the Loader attempts module loads strictly sequentially in
non-decreasing priority order, with equal priorities attempted in
registration order: the sorted descriptor list has non-decreasing
priorities, each priority class keeps registration order (stability),
the loop's turns are an in-order prefix of that list, and the fetches
performed are an in-order sublist of it. -/
theorem C6_priority_order (reg : Registry) (fetchOk : String → Bool) :
    (sortByPriority reg).Pairwise (fun a b => a.2.priority ≤ b.2.priority)
    ∧ (∀ q : Int, (sortByPriority reg).filter (fun p => decide (p.2.priority = q)) =
        reg.filter (fun p => decide (p.2.priority = q)))
    ∧ (∃ k, (loadModules fetchOk reg).1.turns =
        ((sortByPriority reg).map Prod.fst).take k)
    ∧ (loadModules fetchOk reg).1.fetchAttempts.Sublist
        ((sortByPriority reg).map Prod.fst) := by
  refine ⟨sortByPriority_sorted reg, sortByPriority_stable reg, ?_, ?_⟩
  · obtain ⟨k, hk⟩ := loadAux_turns_take fetchOk (sortByPriority reg) initialLoadState
    exact ⟨k, by simpa [initialLoadState] using hk⟩
  · obtain ⟨t, ht, hsub⟩ := loadAux_fetch_sub fetchOk (sortByPriority reg) initialLoadState
    have : (loadModules fetchOk reg).1.fetchAttempts = t := by
      simpa [initialLoadState] using ht
    rw [this]
    exact hsub

/-- Claim C2: the startup sequence emits the ReadySignal exactly once and
only on success; on success every required module is in both the loaded
set and the set of successfully initialized modules and the signal
carries the loaded set; a required failure resolves `init()` to `false`
with no ReadySignal.  (The hypotheses say the registry has no duplicate
names and every required name appears in the fixed init order, both true
of the shipped configuration.) -/
theorem C2_ready_signal (reg : Registry) (initOrder : List String)
    (fetchOk initOk : String → Bool)
    (hnd : (reg.map Prod.fst).Nodup)
    (hcover : ∀ p ∈ reg, p.2.required = true → p.1 ∈ initOrder) :
    ((performInit reg initOrder fetchOk initOk).readySignals.length =
      if (performInit reg initOrder fetchOk initOk).ok then 1 else 0)
    ∧ ((performInit reg initOrder fetchOk initOk).ok = true →
        (performInit reg initOrder fetchOk initOk).readySignals =
          [(performInit reg initOrder fetchOk initOk).loadedModules]
        ∧ ∀ p ∈ reg, p.2.required = true →
            p.1 ∈ (performInit reg initOrder fetchOk initOk).loadedModules
            ∧ p.1 ∈ (performInit reg initOrder fetchOk initOk).inited)
    ∧ ((performInit reg initOrder fetchOk initOk).ok = false →
        (performInit reg initOrder fetchOk initOk).readySignals = []) := by
  cases hl : (loadModules fetchOk reg).2 with
  | false => simp [performInit, hl]
  | true =>
      cases hi : (initModulesAux reg initOk
          (loadModules fetchOk reg).1.loadedModules initOrder ⟨[], []⟩).2 with
      | false => simp [performInit, hl, hi]
      | true =>
          refine ⟨by simp [performInit, hl, hi], ?_, ?_⟩
          · intro _
            refine ⟨by simp [performInit, hl, hi], ?_⟩
            intro p hp hreq
            have hle : (performInit reg initOrder fetchOk initOk).loadedModules =
                (loadModules fetchOk reg).1.loadedModules := by
              simp [performInit, hl, hi]
            have hie : (performInit reg initOrder fetchOk initOk).inited =
                (initModulesAux reg initOk
                  (loadModules fetchOk reg).1.loadedModules initOrder ⟨[], []⟩).1.inited := by
              simp [performInit, hl, hi]
            rw [hle, hie]
            have hmem : p ∈ sortByPriority reg := (sortByPriority_perm reg).mem_iff.2 hp
            have hload : p.1 ∈ (loadModules fetchOk reg).1.loadedModules :=
              loadAux_required_loaded fetchOk (sortByPriority reg) initialLoadState hl
                p hmem hreq
            refine ⟨hload, ?_⟩
            have hcontains :
                (loadModules fetchOk reg).1.loadedModules.contains p.1 = true := by
              exact List.elem_eq_true_of_mem hload
            have hlook : lookupRequired reg p.1 = true := by
              rw [lookupRequired_eq reg p hnd hp, hreq]
            exact initAux_required_inited reg initOk
              (loadModules fetchOk reg).1.loadedModules initOrder ⟨[], []⟩ hi
              p.1 (hcover p hp hreq) hcontains hlook
          · intro h
            have hok : (performInit reg initOrder fetchOk initOk).ok = true := by
              simp [performInit, hl, hi]
            rw [hok] at h
            cases h

/-- Claim C1: if a module's turn comes with some declared dependency not
yet loaded, its fetch is never attempted and a DependencyUnmet failure is
recorded; a required module aborts the sequence there (`init()` resolves
`false`, no ReadySignal), an optional module lets the sequence continue
with the remaining descriptors and stays absent from the loaded set. -/
theorem C1_dependency_unmet (reg : Registry) (initOrder : List String)
    (fetchOk initOk : String → Bool)
    (pre post : Registry) (m : String × ModuleConfig)
    (hnd : (reg.map Prod.fst).Nodup)
    (hsplit : sortByPriority reg = pre ++ m :: post)
    (hpre : (loadModulesAux fetchOk pre initialLoadState).2 = true)
    (hdep : (firstMissingDep
        (loadModulesAux fetchOk pre initialLoadState).1.loadedModules
        m.2.depends).isSome = true) :
    m.1 ∉ (loadModules fetchOk reg).1.fetchAttempts
    ∧ (∃ d, LoadFailure.depUnmet m.1 d ∈ (loadModules fetchOk reg).1.failures)
    ∧ (m.2.required = true →
        (loadModules fetchOk reg).2 = false
        ∧ (loadModules fetchOk reg).1.turns =
            (loadModulesAux fetchOk pre initialLoadState).1.turns ++ [m.1]
        ∧ (performInit reg initOrder fetchOk initOk).ok = false
        ∧ (performInit reg initOrder fetchOk initOk).readySignals = [])
    ∧ (m.2.required = false →
        (∃ d, loadModules fetchOk reg =
          loadModulesAux fetchOk post
            { (loadModulesAux fetchOk pre initialLoadState).1 with
              turns := (loadModulesAux fetchOk pre initialLoadState).1.turns ++ [m.1],
              failures := (loadModulesAux fetchOk pre initialLoadState).1.failures ++
                [LoadFailure.depUnmet m.1 d] })
        ∧ m.1 ∉ (loadModules fetchOk reg).1.loadedModules) := by
  obtain ⟨d, hd⟩ := Option.isSome_iff_exists.1 hdep
  have hstep := loadStep_dep fetchOk hd
  have hrun : loadModules fetchOk reg =
      loadModulesAux fetchOk (m :: post) (loadModulesAux fetchOk pre initialLoadState).1 := by
    unfold loadModules
    rw [hsplit, loadAux_append, if_pos hpre]
  have hnds : ((sortByPriority reg).map Prod.fst).Nodup :=
    ((sortByPriority_perm reg).map Prod.fst).nodup_iff.2 hnd
  rw [hsplit] at hnds
  simp only [List.map_append, List.map_cons, List.nodup_append, List.nodup_cons] at hnds
  have hmpre : m.1 ∉ pre.map Prod.fst := by
    intro hin
    exact hnds.2.2 hin (List.mem_cons_self m.1 _)
  have hmpost : m.1 ∉ post.map Prod.fst := hnds.2.1.1
  obtain ⟨tf, htf, hsubf⟩ := loadAux_fetch_sub fetchOk pre initialLoadState
  have hfetch1 : m.1 ∉ (loadModulesAux fetchOk pre initialLoadState).1.fetchAttempts := by
    intro hin
    rw [htf] at hin
    simp only [initialLoadState, List.nil_append] at hin
    exact hmpre (hsubf.subset hin)
  obtain ⟨tl, htl, hsubl⟩ := loadAux_loaded_sub fetchOk pre initialLoadState
  have hloaded1 : m.1 ∉ (loadModulesAux fetchOk pre initialLoadState).1.loadedModules := by
    intro hin
    rw [htl] at hin
    simp only [initialLoadState, List.nil_append] at hin
    exact hmpre (hsubl.subset hin)
  cases hreq : m.2.required with
  | true =>
      have hflag : (loadStep fetchOk (loadModulesAux fetchOk pre initialLoadState).1 m).2 = false := by
        rw [hstep, hreq]
        rfl
      have hfull : loadModules fetchOk reg =
          ({ (loadModulesAux fetchOk pre initialLoadState).1 with
             turns := (loadModulesAux fetchOk pre initialLoadState).1.turns ++ [m.1],
             failures := (loadModulesAux fetchOk pre initialLoadState).1.failures ++
               [LoadFailure.depUnmet m.1 d] }, false) := by
        rw [hrun, loadAux_cons, if_neg (by simp [hflag]), hstep, hreq]
        rfl
      refine ⟨?_, ⟨d, ?_⟩, ?_, ?_⟩
      · rw [hfull]
        exact hfetch1
      · rw [hfull]
        simp
      · intro _
        refine ⟨by rw [hfull], by rw [hfull], ?_, ?_⟩
        · simp [performInit, hfull]
        · simp [performInit, hfull]
      · intro h
        cases h
  | false =>
      have hflag : (loadStep fetchOk (loadModulesAux fetchOk pre initialLoadState).1 m).2 = true := by
        rw [hstep, hreq]
        rfl
      have hfull : loadModules fetchOk reg =
          loadModulesAux fetchOk post
            { (loadModulesAux fetchOk pre initialLoadState).1 with
              turns := (loadModulesAux fetchOk pre initialLoadState).1.turns ++ [m.1],
              failures := (loadModulesAux fetchOk pre initialLoadState).1.failures ++
                [LoadFailure.depUnmet m.1 d] } := by
        rw [hrun, loadAux_cons, if_pos hflag, hstep]
      have hnotloaded : m.1 ∉ (loadModules fetchOk reg).1.loadedModules := by
        rw [hfull]
        obtain ⟨t2, ht2, hsub2⟩ := loadAux_loaded_sub fetchOk post
          { (loadModulesAux fetchOk pre initialLoadState).1 with
            turns := (loadModulesAux fetchOk pre initialLoadState).1.turns ++ [m.1],
            failures := (loadModulesAux fetchOk pre initialLoadState).1.failures ++
              [LoadFailure.depUnmet m.1 d] }
        intro hin
        rw [ht2] at hin
        rcases List.mem_append.1 hin with hin | hin
        · exact hloaded1 hin
        · exact hmpost (hsub2.subset hin)
      refine ⟨?_, ⟨d, ?_⟩, ?_, fun _ => ⟨⟨d, hfull⟩, hnotloaded⟩⟩
      · rw [hfull]
        obtain ⟨t2, ht2, hsub2⟩ := loadAux_fetch_sub fetchOk post
          { (loadModulesAux fetchOk pre initialLoadState).1 with
            turns := (loadModulesAux fetchOk pre initialLoadState).1.turns ++ [m.1],
            failures := (loadModulesAux fetchOk pre initialLoadState).1.failures ++
              [LoadFailure.depUnmet m.1 d] }
        intro hin
        rw [ht2] at hin
        rcases List.mem_append.1 hin with hin | hin
        · exact hfetch1 hin
        · exact hmpost (hsub2.subset hin)
      · rw [hfull]
        obtain ⟨t2, ht2⟩ := loadAux_failures_mono fetchOk post
          { (loadModulesAux fetchOk pre initialLoadState).1 with
            turns := (loadModulesAux fetchOk pre initialLoadState).1.turns ++ [m.1],
            failures := (loadModulesAux fetchOk pre initialLoadState).1.failures ++
              [LoadFailure.depUnmet m.1 d] }
        rw [ht2]
        simp
      · intro h
        cases h

/-! ### Memoization lemmas -/

theorem initCalls_memoized (reg : Registry) (initOrder : List String)
    (fetchOk initOk : String → Bool) (n : Nat) (r : InitResult) :
    initCalls reg initOrder fetchOk initOk n ⟨some r⟩ =
      (List.replicate n r, ⟨some r⟩, 0) := by
  induction n with
  | zero => rfl
  | succ k ih => simp [initCalls, initCall, ih, List.replicate_succ]

/-- Claim C3: N calls to `init()` (N ≥ 2) execute exactly one underlying
startup sequence; every caller receives the result of the single
`_performInit` run, so the fetch attempts observed are exactly those of
one call. -/
theorem C3_memoized_init (reg : Registry) (initOrder : List String)
    (fetchOk initOk : String → Bool) (n : Nat) (hn : 2 ≤ n) :
    (initCalls reg initOrder fetchOk initOk n ⟨none⟩).2.2 = 1
    ∧ (initCalls reg initOrder fetchOk initOk n ⟨none⟩).1 =
        List.replicate n (performInit reg initOrder fetchOk initOk)
    ∧ ∀ r ∈ (initCalls reg initOrder fetchOk initOk n ⟨none⟩).1,
        r.fetchAttempts = (performInit reg initOrder fetchOk initOk).fetchAttempts := by
  obtain ⟨k, rfl⟩ : ∃ k, n = k + 1 := ⟨n - 1, by omega⟩
  have h1 : initCalls reg initOrder fetchOk initOk (k + 1) ⟨none⟩ =
      (performInit reg initOrder fetchOk initOk ::
        List.replicate k (performInit reg initOrder fetchOk initOk),
       ⟨some (performInit reg initOrder fetchOk initOk)⟩, 1) := by
    simp [initCalls, initCall, initCalls_memoized]
  refine ⟨by rw [h1], by rw [h1, List.replicate_succ], ?_⟩
  rw [h1]
  intro r hr
  rcases List.mem_cons.1 hr with rfl | hr
  · rfl
  · rw [List.eq_of_mem_replicate hr]

/-- Claim C7 (amended): `loadModule` has no idempotence guard: every
call, including one for a module already in the loaded set, starts a
fresh fetch of the module's code unit. -/
theorem C7_loadModule_always_fetches (f : String → Bool) (st : LoadState)
    (name : String) (h : name ∈ st.loadedModules) :
    (loadModule f st name).1.fetchAttempts.count name =
      st.fetchAttempts.count name + 1
    ∧ (loadModule f st name).1.fetchAttempts = st.fetchAttempts ++ [name] := by
  refine ⟨?_, rfl⟩
  simp [loadModule]

/-- Claim C7 counterexample: with `config` already loaded (and already
fetched once), a repeated `loadModule` call performs a second fetch. -/
theorem C7_counterexample :
    "config" ∈ (⟨["config"], ["config"], ["config"], []⟩ : LoadState).loadedModules
    ∧ (loadModule (fun _ => true) ⟨["config"], ["config"], ["config"], []⟩
        "config").1.fetchAttempts.count "config" = 2 := by
  exact ⟨by decide, by decide⟩

theorem C7_witness :
    (loadModule (fun _ => true) ⟨["config"], ["config"], ["config"], []⟩
        "config").1.fetchAttempts.count "config" =
      (["config"] : List String).count "config" + 1 :=
  (C7_loadModule_always_fetches (fun _ => true)
    ⟨["config"], ["config"], ["config"], []⟩ "config" (by decide)).1

/-! ### Teardown lemmas -/

theorem teardownN_count (present : String → Bool) (name : String) :
    ∀ (n : Nat) (log : List String),
      (teardownN present n log).count name =
        log.count name + n * (cleanupOrder.filter (fun x => present x)).count name := by
  intro n
  induction n with
  | zero => intro log; simp [teardownN]
  | succ k ih =>
      intro log
      rw [teardownN, ih, teardown, List.count_append]
      ring

/-- Claim C9 (amended): the teardown handler never raises (every module
cleanup is guarded by a presence check, so each invocation is a total
function of the state), but there is no once-guard: `n` invocations run
every present module's cleanup `n` times, so cleanups run exactly once
only when teardown fires exactly once. -/
theorem C9_cleanup_per_invocation (present : String → Bool) (n : Nat)
    (name : String) :
    (teardownN present n []).count name =
      n * (cleanupOrder.filter (fun x => present x)).count name := by
  rw [teardownN_count]
  simp

/-- Claim C9 counterexample: two teardown invocations invoke the `cache`
cleanup twice, not exactly once. -/
theorem C9_counterexample :
    (teardownN (fun _ => true) 2 []).count "cache" = 2 := by decide

/-- Claim C10: the status snapshot's `loaded` flag is true exactly when
the loaded set is nonempty; the snapshot is a function of the loaded set
and the ready flag alone (it records nothing about which modules were
initialized); and after a startup run in which required `cache` fails to
fetch, the snapshot reports `loaded = true` with `ready = false`. -/
theorem C10_getStatus (s1 s2 : SystemState) :
    ((getStatus s1).loaded = true ↔ s1.loadedModules ≠ [])
    ∧ (getStatus s1).modules = s1.loadedModules
    ∧ (s1.loadedModules = s2.loadedModules → s1.ready = s2.ready →
        getStatus s1 = getStatus s2)
    ∧ getStatus (stateAfterInit defaultModules defaultInitOrder
        (fun nm => nm != "cache") (fun _ => true)) =
        { loaded := true, modules := ["config"], ready := false } := by
  refine ⟨?_, rfl, ?_, by decide⟩
  · simp [getStatus, List.length_pos]
  · intro h1 h2
    simp [getStatus, h1, h2]

theorem C10_witness :
    getStatus ⟨["config"], [], false⟩ = getStatus ⟨["config"], ["config"], false⟩ :=
  (C10_getStatus ⟨["config"], [], false⟩ ⟨["config"], ["config"], false⟩).2.2.1 rfl rfl

/-- Claim C8 (amended): for a (non-negative) viewport height, the
computed distance is `0` on the in-viewport branch (`0 ≤ top ≤ vh`),
the strictly positive gap `top - vh` on the below branch (`top > vh`),
and `|bottom|` on the above branch (`top < 0`) — which is `0`, not
positive, when the element's bottom edge sits exactly at the viewport
top; hence distance `0` characterizes `0 ≤ top ≤ vh` or
(`top < 0` and `bottom = 0`). -/
theorem C8_distance_cases (rect : Rect) (vh : Int) (hvh : 0 ≤ vh) :
    (0 ≤ rect.top → rect.top ≤ vh → getDistanceFromViewport rect vh = 0)
    ∧ (vh < rect.top → getDistanceFromViewport rect vh = rect.top - vh
        ∧ 0 < getDistanceFromViewport rect vh)
    ∧ (rect.top < 0 → getDistanceFromViewport rect vh = |rect.bottom|)
    ∧ (getDistanceFromViewport rect vh = 0 ↔
        (0 ≤ rect.top ∧ rect.top ≤ vh) ∨ (rect.top < 0 ∧ rect.bottom = 0)) := by
  unfold getDistanceFromViewport
  split_ifs with h1 h2
  · refine ⟨fun _ _ => rfl, fun hlt => absurd hlt (by omega), fun hlt => absurd hlt (by omega), ?_⟩
    simp [h1]
  · refine ⟨fun ha hb => absurd (And.intro ha hb) h1, fun _ => ⟨rfl, by omega⟩,
      fun hlt => absurd hlt (by omega), ?_⟩
    constructor
    · intro h0
      omega
    · intro hc
      rcases hc with hc | hc
      · exact absurd hc h1
      · omega
  · have htop : rect.top < 0 := by omega
    refine ⟨fun ha _ => absurd ha (by omega), fun hlt => absurd hlt (by omega),
      fun _ => rfl, ?_⟩
    rw [abs_eq_zero]
    constructor
    · intro h0
      exact Or.inr ⟨htop, h0⟩
    · intro hc
      rcases hc with hc | hc
      · exact absurd hc h1
      · exact hc.2

/-- Claim C8 counterexample: an element entirely above the viewport
(`top = -5 < 0`, not within the in-viewport branch) whose bottom edge is
exactly at the viewport top gets distance `0`, not a positive offset. -/
theorem C8_counterexample :
    (⟨-5, 0⟩ : Rect).top < 0
    ∧ ¬ (0 ≤ (⟨-5, 0⟩ : Rect).top ∧ (⟨-5, 0⟩ : Rect).top ≤ 800)
    ∧ getDistanceFromViewport ⟨-5, 0⟩ 800 = 0 := by
  refine ⟨by decide, by decide, by decide⟩

theorem C8_witness :
    getDistanceFromViewport ⟨100, 300⟩ 800 = 0
    ∧ getDistanceFromViewport ⟨900, 1100⟩ 800 = 100
    ∧ 0 < getDistanceFromViewport ⟨900, 1100⟩ 800
    ∧ getDistanceFromViewport ⟨-400, -200⟩ 800 = |(-200 : Int)| := by
  have h1 := (C8_distance_cases ⟨100, 300⟩ 800 (by decide)).1 (by decide) (by decide)
  have h2 := (C8_distance_cases ⟨900, 1100⟩ 800 (by decide)).2.1 (by decide)
  have h3 := (C8_distance_cases ⟨-400, -200⟩ 800 (by decide)).2.2.1 (by decide)
  exact ⟨h1, h2.1, h2.2, h3⟩

/-! ### Scheduler lemmas -/

theorem sortByDistance_sorted (l : List Candidate) :
    (sortByDistance l).Pairwise (fun a b => a.distance ≤ b.distance) :=
  List.sorted_insertionSort _ l

theorem sortByDistance_perm (l : List Candidate) : (sortByDistance l).Perm l :=
  List.perm_insertionSort _ l

theorem batchSizeOf_pos (cfg : Option Nat) : 0 < batchSizeOf cfg := by
  rcases cfg with _ | (_ | s)
  · decide
  · decide
  · exact Nat.succ_pos s

theorem batchSizeOf_some {S : Nat} (hS : 0 < S) : batchSizeOf (some S) = S := by
  rcases S with _ | s
  · omega
  · rfl

theorem chunksFuel_flatten (S : Nat) (hS : 0 < S) :
    ∀ (fuel : Nat) (l : List Candidate), l.length ≤ fuel →
      (chunksFuel S fuel l).flatten = l := by
  intro fuel
  induction fuel with
  | zero =>
      intro l hl
      rw [Nat.le_zero, List.length_eq_zero] at hl
      subst hl
      rfl
  | succ k ih =>
      intro l hl
      cases l with
      | nil => rfl
      | cons a l =>
          have hl' : l.length + 1 ≤ k + 1 := by
            simpa using hl
          rw [chunksFuel, List.flatten_cons,
            ih (l.drop (S - 1)) (by simp [List.length_drop]; omega)]
          have htake : (a :: l).take S = a :: l.take (S - 1) := by
            obtain ⟨S', rfl⟩ : ∃ S', S = S' + 1 := ⟨S - 1, by omega⟩
            simp
          rw [htake]
          simp [List.take_append_drop]

theorem chunksFuel_length (S : Nat) (hS : 0 < S) :
    ∀ (fuel : Nat) (l : List Candidate), l.length ≤ fuel →
      (chunksFuel S fuel l).length = (l.length + S - 1) / S := by
  intro fuel
  induction fuel with
  | zero =>
      intro l hl
      rw [Nat.le_zero, List.length_eq_zero] at hl
      subst hl
      simp only [chunksFuel, List.length_nil]
      exact (Nat.div_eq_of_lt (by omega)).symm
  | succ k ih =>
      intro l hl
      cases l with
      | nil =>
          simp only [chunksFuel, List.length_nil]
          exact (Nat.div_eq_of_lt (by omega)).symm
      | cons a l =>
          have hl' : l.length + 1 ≤ k + 1 := by
            simpa using hl
          rw [chunksFuel, List.length_cons,
            ih (l.drop (S - 1)) (by simp [List.length_drop]; omega)]
          rw [List.length_drop, List.length_cons]
          rcases Nat.lt_or_ge l.length (S - 1) with hlen | hlen
          · have h1 : l.length - (S - 1) = 0 := by omega
            have h2 : l.length + 1 + S - 1 = l.length + S := by omega
            rw [h1, h2, Nat.div_eq_of_lt (by omega : 0 + S - 1 < S),
              Nat.add_div_right _ hS, Nat.div_eq_of_lt (by omega : l.length < S)]
          · have h1 : l.length - (S - 1) + S - 1 = l.length := by omega
            have h2 : l.length + 1 + S - 1 = l.length + S := by omega
            rw [h1, h2, Nat.add_div_right _ hS]

theorem chunks_flatten {S : Nat} (hS : 0 < S) (l : List Candidate) :
    (chunks S l).flatten = l :=
  chunksFuel_flatten S hS l.length l le_rfl

theorem chunks_length {S : Nat} (hS : 0 < S) (l : List Candidate) :
    (chunks S l).length = (l.length + S - 1) / S :=
  chunksFuel_length S hS l.length l le_rfl

theorem processBatch_dispatched (f : List String → Bool) (st : SchedState)
    (b : List Candidate) :
    (processBatch f st b).dispatched = st.dispatched ++ [b.map Candidate.id] := by
  by_cases hf : f (b.map Candidate.id) = true
  · simp [processBatch, hf]
  · simp [processBatch, hf]

theorem addProcessed_eq (l : List String) (id : String) :
    addProcessed l id = l ∨ addProcessed l id = l ++ [id] := by
  unfold addProcessed
  split
  · exact Or.inl rfl
  · exact Or.inr rfl

theorem foldl_addProcessed_mono (ids : List String) :
    ∀ (l : List String), ∃ t, ids.foldl addProcessed l = l ++ t := by
  induction ids with
  | nil => exact fun l => ⟨[], by simp⟩
  | cons id ids ih =>
      intro l
      rw [List.foldl_cons]
      rcases addProcessed_eq l id with h | h <;> rw [h]
      · exact ih l
      · obtain ⟨t, ht⟩ := ih (l ++ [id])
        exact ⟨id :: t, by rw [ht]; simp⟩

theorem mem_foldl_addProcessed_of_mem (ids : List String) :
    ∀ (l : List String) (x : String), x ∈ l → x ∈ ids.foldl addProcessed l := by
  induction ids with
  | nil => exact fun l x hx => hx
  | cons id ids ih =>
      intro l x hx
      rw [List.foldl_cons]
      refine ih (addProcessed l id) x ?_
      unfold addProcessed
      split
      · exact hx
      · exact List.mem_append_left _ hx

theorem mem_addProcessed_self (l : List String) (id : String) :
    id ∈ addProcessed l id := by
  unfold addProcessed
  split
  · exact List.mem_of_elem_eq_true (by assumption)
  · simp

theorem mem_foldl_addProcessed_of_mem_ids (ids : List String) :
    ∀ (l : List String) (x : String), x ∈ ids → x ∈ ids.foldl addProcessed l := by
  induction ids with
  | nil => intro l x hx; simp at hx
  | cons id ids ih =>
      intro l x hx
      rw [List.foldl_cons]
      rcases List.mem_cons.1 hx with rfl | hx
      · exact mem_foldl_addProcessed_of_mem ids _ x (mem_addProcessed_self l x)
      · exact ih _ x hx

theorem nodup_addProcessed (l : List String) (id : String) (h : l.Nodup) :
    (addProcessed l id).Nodup := by
  unfold addProcessed
  split
  · exact h
  · have : id ∉ l := by
      intro hm
      have := List.elem_eq_true_of_mem hm
      simp_all
    simp [List.nodup_append, h, this]

theorem nodup_foldl_addProcessed (ids : List String) :
    ∀ (l : List String), l.Nodup → (ids.foldl addProcessed l).Nodup := by
  induction ids with
  | nil => exact fun l h => h
  | cons id ids ih =>
      intro l h
      rw [List.foldl_cons]
      exact ih _ (nodup_addProcessed l id h)

theorem processBatch_processed (f : List String → Bool) (st : SchedState)
    (b : List Candidate) :
    ∃ t, (processBatch f st b).processedContainers = st.processedContainers ++ t := by
  by_cases hf : f (b.map Candidate.id) = true
  · simp only [processBatch, hf, if_pos rfl]
    exact foldl_addProcessed_mono _ _
  · refine ⟨[], ?_⟩
    simp [processBatch, hf]

theorem nodup_processBatch (f : List String → Bool) (st : SchedState)
    (b : List Candidate) (h : st.processedContainers.Nodup) :
    (processBatch f st b).processedContainers.Nodup := by
  by_cases hf : f (b.map Candidate.id) = true
  · simp only [processBatch, hf, if_pos rfl]
    exact nodup_foldl_addProcessed _ _ h
  · simpa [processBatch, hf] using h

theorem foldl_processBatch_dispatched (f : List String → Bool)
    (batches : List (List Candidate)) :
    ∀ (st : SchedState),
      (batches.foldl (processBatch f) st).dispatched =
        st.dispatched ++ batches.map (fun b => b.map Candidate.id) := by
  induction batches with
  | nil => intro st; simp
  | cons b batches ih =>
      intro st
      rw [List.foldl_cons, ih, processBatch_dispatched]
      simp

theorem foldl_processBatch_processed (f : List String → Bool)
    (batches : List (List Candidate)) :
    ∀ (st : SchedState), ∃ t,
      (batches.foldl (processBatch f) st).processedContainers =
        st.processedContainers ++ t := by
  induction batches with
  | nil => exact fun st => ⟨[], by simp⟩
  | cons b batches ih =>
      intro st
      rw [List.foldl_cons]
      obtain ⟨t1, ht1⟩ := processBatch_processed f st b
      obtain ⟨t2, ht2⟩ := ih (processBatch f st b)
      exact ⟨t1 ++ t2, by rw [ht2, ht1, List.append_assoc]⟩

theorem handleIntersection_dispatched (f : List String → Bool)
    (vh : Int) (cfg : Option Nat) (entries : List IEntry) (st : SchedState) :
    (handleIntersection f vh cfg entries st).dispatched =
      st.dispatched ++ (chunks (batchSizeOf cfg)
        (sortByDistance (eligibleEntries st.processedContainers vh entries))).map
        (fun b => b.map Candidate.id) := by
  by_cases he : (eligibleEntries st.processedContainers vh entries).isEmpty = true
  · have hnil : eligibleEntries st.processedContainers vh entries = [] :=
      List.isEmpty_iff.1 he
    simp [handleIntersection, he, hnil, sortByDistance, chunks, chunksFuel]
  · simp only [handleIntersection, he, if_neg]
    exact foldl_processBatch_dispatched f _ st

theorem handleIntersection_processed (f : List String → Bool)
    (vh : Int) (cfg : Option Nat) (entries : List IEntry) (st : SchedState) :
    ∃ t, (handleIntersection f vh cfg entries st).processedContainers =
      st.processedContainers ++ t := by
  by_cases he : (eligibleEntries st.processedContainers vh entries).isEmpty = true
  · refine ⟨[], ?_⟩
    simp [handleIntersection, he]
  · simp only [handleIntersection, he, if_neg]
    exact foldl_processBatch_processed f _ st

theorem eligible_id_not_processed (processed : List String) (vh : Int)
    (entries : List IEntry) (c : Candidate)
    (hc : c ∈ eligibleEntries processed vh entries) : c.id ∉ processed := by
  unfold eligibleEntries at hc
  obtain ⟨e, _, he⟩ := List.mem_filterMap.1 hc
  by_cases hcond : e.isIntersecting && !processed.contains e.id
  · rw [if_pos hcond] at he
    cases he
    intro hmem
    have := List.elem_eq_true_of_mem hmem
    simp_all
  · rw [if_neg hcond] at he
    cases he

/-- Claim C4 (amended): only a batch whose remote fetch succeeds has its
containerIds marked processed (each exactly once); a failed batch leaves
ProcessedSet untouched.  ProcessedSet only grows, and an id already in
it is excluded from every batch constructed by a later intersection
callback. -/
theorem C4_processed_set (f : List String → Bool) (vh : Int) (cfg : Option Nat)
    (entries : List IEntry) (st : SchedState) (batch : List Candidate) :
    (f (batch.map Candidate.id) = true →
       ∀ c ∈ batch, c.id ∈ (processBatch f st batch).processedContainers)
    ∧ (f (batch.map Candidate.id) = false →
       (processBatch f st batch).processedContainers = st.processedContainers)
    ∧ (st.processedContainers.Nodup → f (batch.map Candidate.id) = true →
       ∀ c ∈ batch, (processBatch f st batch).processedContainers.count c.id = 1)
    ∧ (∃ t, (handleIntersection f vh cfg entries st).processedContainers =
        st.processedContainers ++ t)
    ∧ (∀ x ∈ st.processedContainers,
        ∀ b ∈ (handleIntersection f vh cfg entries st).dispatched.drop
          st.dispatched.length, x ∉ b) := by
  refine ⟨?_, ?_, ?_, handleIntersection_processed f vh cfg entries st, ?_⟩
  · intro hf c hc
    simp only [processBatch, hf, if_pos rfl]
    exact mem_foldl_addProcessed_of_mem_ids _ _ _ (List.mem_map_of_mem Candidate.id hc)
  · intro hf
    simp [processBatch, hf]
  · intro hnd hf c hc
    exact List.count_eq_one_of_mem (nodup_processBatch f st batch hnd)
      (by
        simp only [processBatch, hf, if_pos rfl]
        exact mem_foldl_addProcessed_of_mem_ids _ _ _ (List.mem_map_of_mem Candidate.id hc))
  · intro x hx b hb
    rw [handleIntersection_dispatched, List.drop_left] at hb
    obtain ⟨c, hc, rfl⟩ := List.mem_map.1 hb
    intro hxb
    obtain ⟨cand, hcand, hcid⟩ := List.mem_map.1 hxb
    have hmem : cand ∈ (chunks (batchSizeOf cfg)
        (sortByDistance (eligibleEntries st.processedContainers vh entries))).flatten :=
      List.mem_flatten.2 ⟨c, hc, hcand⟩
    rw [chunks_flatten (batchSizeOf_pos cfg)] at hmem
    have helig : cand ∈ eligibleEntries st.processedContainers vh entries :=
      (sortByDistance_perm _).mem_iff.1 hmem
    exact eligible_id_not_processed _ vh entries cand helig (hcid ▸ hx)

/-- Claim C4 counterexample: a dispatched batch whose fetch fails leaves
its containerId out of ProcessedSet (it is not marked at all, rather
than marked regardless of the outcome). -/
theorem C4_counterexample :
    (handleIntersection (fun _ => false) 800 (some 30)
        [⟨"container-1", true, ⟨900, 1100⟩⟩] ⟨[], []⟩).dispatched =
      [["container-1"]]
    ∧ (handleIntersection (fun _ => false) 800 (some 30)
        [⟨"container-1", true, ⟨900, 1100⟩⟩] ⟨[], []⟩).processedContainers = [] := by
  exact ⟨by decide, by decide⟩

theorem C4_witness :
    "container-1" ∈ (processBatch (fun _ => true) ⟨[], []⟩
      [⟨"container-1", 0⟩]).processedContainers
    ∧ (processBatch (fun _ => true) ⟨[], []⟩
        [⟨"container-1", 0⟩]).processedContainers.count "container-1" = 1 := by
  have h := C4_processed_set (fun _ => true) 800 (some 30) [] ⟨[], []⟩
    [⟨"container-1", 0⟩]
  exact ⟨h.1 rfl ⟨"container-1", 0⟩ (by decide),
    h.2.2.1 (by decide) rfl ⟨"container-1", 0⟩ (by decide)⟩

/-- Claim C5: an intersection callback with K eligible containers and a
configured (nonzero) batch size S dispatches exactly ⌈K/S⌉ batches, in
sequence, whose concatenation is the eligible entries sorted ascending
by distance from the viewport. -/
theorem C5_batch_dispatch (f : List String → Bool) (vh : Int) (S : Nat)
    (hS : 0 < S) (entries : List IEntry) (st : SchedState) :
    ((handleIntersection f vh (some S) entries st).dispatched =
      st.dispatched ++ (chunks S (sortByDistance
        (eligibleEntries st.processedContainers vh entries))).map
        (fun b => b.map Candidate.id))
    ∧ (chunks S (sortByDistance
        (eligibleEntries st.processedContainers vh entries))).length =
        ((eligibleEntries st.processedContainers vh entries).length + S - 1) / S
    ∧ (chunks S (sortByDistance
        (eligibleEntries st.processedContainers vh entries))).flatten =
        sortByDistance (eligibleEntries st.processedContainers vh entries)
    ∧ (sortByDistance (eligibleEntries st.processedContainers vh entries)).Pairwise
        (fun a b => a.distance ≤ b.distance) := by
  refine ⟨?_, ?_, chunks_flatten hS _, sortByDistance_sorted _⟩
  · rw [handleIntersection_dispatched, batchSizeOf_some hS]
  · rw [chunks_length hS, (sortByDistance_perm _).length_eq]

theorem C5_witness :
    (handleIntersection (fun _ => true) 800 (some 2)
        [⟨"container-1", true, ⟨900, 1100⟩⟩, ⟨"container-2", true, ⟨100, 300⟩⟩,
         ⟨"container-3", true, ⟨-400, -200⟩⟩] ⟨[], []⟩).dispatched =
      [["container-2", "container-1"], ["container-3"]]
    ∧ (chunks 2 (sortByDistance (eligibleEntries [] 800
        [⟨"container-1", true, ⟨900, 1100⟩⟩, ⟨"container-2", true, ⟨100, 300⟩⟩,
         ⟨"container-3", true, ⟨-400, -200⟩⟩]))).length = 2 := by
  have h := C5_batch_dispatch (fun _ => true) 800 2 (by decide)
    [⟨"container-1", true, ⟨900, 1100⟩⟩, ⟨"container-2", true, ⟨100, 300⟩⟩,
     ⟨"container-3", true, ⟨-400, -200⟩⟩] ⟨[], []⟩
  constructor
  · rw [h.1]
    decide
  · rw [h.2.1]
    decide

theorem C1_witness :
    "forms" ∉ (loadModules (fun n => n != "tracking")
      [("config", ⟨"config.min.js", true, 1, []⟩),
       ("tracking", ⟨"tracking.min.js", false, 2, []⟩),
       ("forms", ⟨"forms.min.js", false, 3, ["tracking"]⟩)]).1.fetchAttempts
    ∧ (∃ d, LoadFailure.depUnmet "forms" d ∈ (loadModules (fun n => n != "tracking")
        [("config", ⟨"config.min.js", true, 1, []⟩),
         ("tracking", ⟨"tracking.min.js", false, 2, []⟩),
         ("forms", ⟨"forms.min.js", false, 3, ["tracking"]⟩)]).1.failures)
    ∧ "forms" ∉ (loadModules (fun n => n != "tracking")
        [("config", ⟨"config.min.js", true, 1, []⟩),
         ("tracking", ⟨"tracking.min.js", false, 2, []⟩),
         ("forms", ⟨"forms.min.js", false, 3, ["tracking"]⟩)]).1.loadedModules := by
  have h := C1_dependency_unmet
    [("config", ⟨"config.min.js", true, 1, []⟩),
     ("tracking", ⟨"tracking.min.js", false, 2, []⟩),
     ("forms", ⟨"forms.min.js", false, 3, ["tracking"]⟩)]
    defaultInitOrder (fun n => n != "tracking") (fun _ => true)
    [("config", ⟨"config.min.js", true, 1, []⟩),
     ("tracking", ⟨"tracking.min.js", false, 2, []⟩)]
    []
    ("forms", ⟨"forms.min.js", false, 3, ["tracking"]⟩)
    (by decide) (by decide) (by decide) (by decide)
  exact ⟨h.1, h.2.1, (h.2.2.2 rfl).2⟩

theorem C2_witness :
    (performInit defaultModules defaultInitOrder
      (fun n => n != "gallery") (fun _ => true)).ok = true
    ∧ "gallery" ∉ (performInit defaultModules defaultInitOrder
        (fun n => n != "gallery") (fun _ => true)).loadedModules
    ∧ (performInit defaultModules defaultInitOrder
        (fun n => n != "gallery") (fun _ => true)).readySignals =
      [(performInit defaultModules defaultInitOrder
        (fun n => n != "gallery") (fun _ => true)).loadedModules]
    ∧ "config" ∈ (performInit defaultModules defaultInitOrder
        (fun n => n != "gallery") (fun _ => true)).loadedModules
    ∧ "config" ∈ (performInit defaultModules defaultInitOrder
        (fun n => n != "gallery") (fun _ => true)).inited := by
  have h := C2_ready_signal defaultModules defaultInitOrder
    (fun n => n != "gallery") (fun _ => true) (by decide) (by decide)
  have hok : (performInit defaultModules defaultInitOrder
      (fun n => n != "gallery") (fun _ => true)).ok = true := by decide
  obtain ⟨hsig, hreq⟩ := h.2.1 hok
  refine ⟨hok, by decide, hsig, ?_, ?_⟩
  · exact (hreq ("config", ⟨"config.min.js", true, 1, []⟩) (by decide) rfl).1
  · exact (hreq ("config", ⟨"config.min.js", true, 1, []⟩) (by decide) rfl).2

theorem C3_witness :
    (initCalls defaultModules defaultInitOrder
      (fun _ => true) (fun _ => true) 3 ⟨none⟩).2.2 = 1
    ∧ (initCalls defaultModules defaultInitOrder
        (fun _ => true) (fun _ => true) 3 ⟨none⟩).1 =
      List.replicate 3 (performInit defaultModules defaultInitOrder
        (fun _ => true) (fun _ => true)) := by
  have h := C3_memoized_init defaultModules defaultInitOrder
    (fun _ => true) (fun _ => true) 3 (by omega)
  exact ⟨h.1, h.2.1⟩
